import Mathlib

set_option maxRecDepth 2000000

/-!
Verification of the fixed-layout EBCDIC record codec of this repository:
the packed-decimal ("COMP-3") codec `pack_comp3` / `unpack_comp3`, the
record serializer `create_ebcdic_record`, the stream reader
`parse_mainframe_file` and the stream writer `dataframe_to_dat`.

Bytes and Unicode code points are embedded as natural numbers; Python
strings and byte strings as lists of naturals.  A Python function that can
raise is embedded as an `Option`-valued function returning `none` where
the original raises.
-/

namespace GreenZombies

/-- Code points below 256 that Python's `str.strip` removes, i.e. those
with `chr(i).isspace()`.  Code page 037 only decodes to code points below
256, so this is the exact strip predicate for decoded text. -/
def pyIsSpace (c : Nat) : Bool :=
  c == 9 || c == 10 || c == 11 || c == 12 || c == 13 ||
  c == 28 || c == 29 || c == 30 || c == 31 || c == 32 || c == 133 || c == 160

/-- Python `str.strip`: drop leading and trailing whitespace. -/
def pyStrip (s : List Nat) : List Nat :=
  ((s.dropWhile pyIsSpace).reverse.dropWhile pyIsSpace).reverse

/-- Decoding table of IBM code page 037 (Python codec `cp037`): entry `b`
is the Unicode code point the byte `b` decodes to.  The table is a
bijection over the 256 byte values. -/
def cp037Table : List Nat :=
  [0x00, 0x01, 0x02, 0x03, 0x9C, 0x09, 0x86, 0x7F,
   0x97, 0x8D, 0x8E, 0x0B, 0x0C, 0x0D, 0x0E, 0x0F,
   0x10, 0x11, 0x12, 0x13, 0x9D, 0x85, 0x08, 0x87,
   0x18, 0x19, 0x92, 0x8F, 0x1C, 0x1D, 0x1E, 0x1F,
   0x80, 0x81, 0x82, 0x83, 0x84, 0x0A, 0x17, 0x1B,
   0x88, 0x89, 0x8A, 0x8B, 0x8C, 0x05, 0x06, 0x07,
   0x90, 0x91, 0x16, 0x93, 0x94, 0x95, 0x96, 0x04,
   0x98, 0x99, 0x9A, 0x9B, 0x14, 0x15, 0x9E, 0x1A,
   0x20, 0xA0, 0xE2, 0xE4, 0xE0, 0xE1, 0xE3, 0xE5,
   0xE7, 0xF1, 0xA2, 0x2E, 0x3C, 0x28, 0x2B, 0x7C,
   0x26, 0xE9, 0xEA, 0xEB, 0xE8, 0xED, 0xEE, 0xEF,
   0xEC, 0xDF, 0x21, 0x24, 0x2A, 0x29, 0x3B, 0xAC,
   0x2D, 0x2F, 0xC2, 0xC4, 0xC0, 0xC1, 0xC3, 0xC5,
   0xC7, 0xD1, 0xA6, 0x2C, 0x25, 0x5F, 0x3E, 0x3F,
   0xF8, 0xC9, 0xCA, 0xCB, 0xC8, 0xCD, 0xCE, 0xCF,
   0xCC, 0x60, 0x3A, 0x23, 0x40, 0x27, 0x3D, 0x22,
   0xD8, 0x61, 0x62, 0x63, 0x64, 0x65, 0x66, 0x67,
   0x68, 0x69, 0xAB, 0xBB, 0xF0, 0xFD, 0xFE, 0xB1,
   0xB0, 0x6A, 0x6B, 0x6C, 0x6D, 0x6E, 0x6F, 0x70,
   0x71, 0x72, 0xAA, 0xBA, 0xE6, 0xB8, 0xC6, 0xA4,
   0xB5, 0x7E, 0x73, 0x74, 0x75, 0x76, 0x77, 0x78,
   0x79, 0x7A, 0xA1, 0xBF, 0xD0, 0xDD, 0xDE, 0xAE,
   0x5E, 0xA3, 0xA5, 0xB7, 0xA9, 0xA7, 0xB6, 0xBC,
   0xBD, 0xBE, 0x5B, 0x5D, 0xAF, 0xA8, 0xB4, 0xD7,
   0x7B, 0x41, 0x42, 0x43, 0x44, 0x45, 0x46, 0x47,
   0x48, 0x49, 0xAD, 0xF4, 0xF6, 0xF2, 0xF3, 0xF5,
   0x7D, 0x4A, 0x4B, 0x4C, 0x4D, 0x4E, 0x4F, 0x50,
   0x51, 0x52, 0xB9, 0xFB, 0xFC, 0xF9, 0xFA, 0xFF,
   0x5C, 0xF7, 0x53, 0x54, 0x55, 0x56, 0x57, 0x58,
   0x59, 0x5A, 0xB2, 0xD4, 0xD6, 0xD2, 0xD3, 0xD5,
   0x30, 0x31, 0x32, 0x33, 0x34, 0x35, 0x36, 0x37,
   0x38, 0x39, 0xB3, 0xDB, 0xDC, 0xD9, 0xDA, 0x9F]

/-- Decode one byte through code page 037 (total, as in Python). -/
def cp037DecodeByte (b : Nat) : Nat :=
  cp037Table.getD b 0

/-- Index of the first occurrence of `c` in a list, or `none`. -/
def lookupIdx (c : Nat) : List Nat → Option Nat
  | [] => none
  | x :: xs => if x == c then some 0 else (lookupIdx c xs).map (· + 1)

/-- Encode one code point through code page 037: the inverse lookup into
the decoding table, mirroring the encoding map Python builds as the
inverse of the decoding table; `none` when the character has no mapping
(Python raises `UnicodeEncodeError`). -/
def cp037EncodeChar (c : Nat) : Option Nat :=
  lookupIdx c cp037Table

/-- Fuel-indexed helper for `decDigits`; structural recursion on the fuel
keeps the definition computable inside the kernel.  Any fuel above the
number itself is enough, since `n / 10 < n` for `n ≥ 10`. -/
def decDigitsAux : Nat → Nat → List Nat
  | 0, _ => []
  | fuel + 1, n => if n < 10 then [n] else decDigitsAux fuel (n / 10) ++ [n % 10]

/-- Decimal digit list of a natural number, most significant digit first,
as produced by Python `str`. -/
def decDigits (n : Nat) : List Nat :=
  decDigitsAux (n + 1) n

/-- Python `str.zfill`: left-pad a digit list with zeros to length `w`
(no effect when the list is already at least that long). -/
def zfill (w : Nat) (ds : List Nat) : List Nat :=
  List.replicate (w - ds.length) 0 ++ ds

/-- Pairing loop of `pack_comp3` in generator.py: each consecutive digit
pair becomes one byte, high nibble first; a trailing unpaired digit is
left for the sign byte. -/
def packPairs : List Nat → List Nat
  | a :: b :: rest => (a * 16 + b) :: packPairs rest
  | _ => []

/-- Embedding of `pack_comp3` from generator.py: zero-fill the decimal
digits of `|number|` to `2*width - 1` digits, pack digit pairs, and append
a final byte holding the last digit and the sign nibble (0xC when the
number is nonnegative, 0xD when negative).  The source performs no range
check, so the digit list may exceed `2*width - 1` digits.  The call sites
use `width = 3`. -/
def pack_comp3 (number : Int) (width : Nat) : List Nat :=
  let digits := zfill (width * 2 - 1) (decDigits number.natAbs)
  let sign : Nat := if 0 ≤ number then 0xC else 0xD
  packPairs digits ++ [digits.getLastD 0 * 16 + sign]

/-- Nibble list of a byte string, as Python `bytes.hex` lists hex
characters: each byte contributes its high nibble then its low nibble. -/
def toNibbles : List Nat → List Nat
  | [] => []
  | b :: bs => b / 16 :: b % 16 :: toNibbles bs

/-- Embedding of `unpack_comp3` from reader.py: the last nibble is the
sign (13, hex `d`, means negative); every other nibble that is a decimal
digit joins the digit string; non-digit nibbles are dropped; an empty
digit string parses as 0.  Returns `none` on an empty byte string, where
Python raises `IndexError` on `h[-1]`. -/
def unpack_comp3 (raw : List Nat) : Option Int :=
  if raw = [] then none
  else
    let h := toNibbles raw
    let sign := h.getLastD 0
    let digits := h.dropLast.filter (fun c => c < 10)
    let val : Nat := digits.foldl (fun a d => a * 10 + d) 0
    some (if sign == 13 then -(val : Int) else (val : Int))

/-- Text-field encoding used by `create_ebcdic_record`: Python left-aligns
the value in a field of `width` characters, padding on the right with
spaces but never truncating, then encodes the result in code page 037.
Returns `none` when some character has no cp037 mapping. -/
def encodeText (s : List Nat) (width : Nat) : Option (List Nat) :=
  (s ++ List.replicate (width - s.length) 32).mapM cp037EncodeChar

/-- Text-field decoding used by `parse_mainframe_file`: decode every byte
through code page 037, then strip leading and trailing whitespace. -/
def decodeText (bs : List Nat) : List Nat :=
  pyStrip (bs.map cp037DecodeByte)

/-- One record of the .dat file, as parse_mainframe_file returns it. -/
structure MRecord where
  id : List Nat
  name : List Nat
  amount : Int
  text : List Nat
deriving DecidableEq, Repr

/-- Embedding of `create_ebcdic_record` from generator.py: concatenation
of the id field padded to 10, the name field padded to 20, the packed
amount and the text field padded to 50.  `none` when a text field fails to
encode. -/
def create_ebcdic_record (r : MRecord) : Option (List Nat) := do
  let i ← encodeText r.id 10
  let n ← encodeText r.name 20
  let t ← encodeText r.text 50
  pure (i ++ n ++ pack_comp3 r.amount 3 ++ t)

/-- Body of the try block of `parse_mainframe_file` for one chunk: slice
the four fields and decode each.  Text decoding is total; only the amount
decoder can fail (on an empty slice), in which case the chunk is a bad
record. -/
def parseChunk (chunk : List Nat) : Option MRecord :=
  match unpack_comp3 ((chunk.drop 30).take 3) with
  | none => none
  | some amt =>
    some { id := decodeText (chunk.take 10)
           name := decodeText ((chunk.drop 10).take 20)
           amount := amt
           text := decodeText ((chunk.drop 33).take 50) }

/-- Fuel-indexed loop of `parse_mainframe_file`; structural recursion on
the fuel keeps the definition computable inside the kernel.  Fuel equal to
the byte count is enough, since every iteration consumes 83 bytes. -/
def parseLoop : Nat → List Nat → List MRecord × Nat
  | 0, _ => ([], 0)
  | fuel + 1, bs =>
    if bs.length < 83 then ([], 0)
    else
      let rest := parseLoop fuel (bs.drop 83)
      match parseChunk (bs.take 83) with
      | none => (rest.1, rest.2 + 1)
      | some r => (r :: rest.1, rest.2)

/-- Embedding of `parse_mainframe_file` from reader.py over an in-memory
byte list: read 83-byte chunks, stop at a short chunk, parse each full
chunk, skip bad records.  The first component is the record list in file
order; the second counts the bad-record diagnostics printed by the except
branch. -/
def parse_mainframe_file (bs : List Nat) : List MRecord × Nat :=
  parseLoop bs.length bs

/-- Embedding of `dataframe_to_dat` from app.py: serialize the rows in
order and concatenate.  `none` as soon as one record fails to serialize:
the exception aborts the whole write and the partial buffer is
discarded. -/
def dataframe_to_dat : List MRecord → Option (List Nat)
  | [] => some []
  | r :: rows => do
    let b ← create_ebcdic_record r
    let rest ← dataframe_to_dat rows
    pure (b ++ rest)

/-- A string with no leading and no trailing whitespace: stripping from
either end removes nothing. -/
abbrev NoEdgeWS (s : List Nat) : Prop :=
  s.dropWhile pyIsSpace = s ∧ s.reverse.dropWhile pyIsSpace = s.reverse

/-- Field values within the stated width and magnitude bounds. -/
abbrev InBounds (r : MRecord) : Prop :=
  r.id.length ≤ 10 ∧ r.name.length ≤ 20 ∧ r.text.length ≤ 50 ∧
  -99999 ≤ r.amount ∧ r.amount ≤ 99999

/-! ### Packed-decimal lemmas -/

theorem decDigitsAux_ne_nil :
    ∀ fuel n : Nat, n < fuel → decDigitsAux fuel n ≠ [] := by
  intro fuel
  induction fuel with
  | zero => intro n h; omega
  | succ f ih =>
    intro n _
    simp only [decDigitsAux]
    split
    · simp
    · simp

theorem decDigits_ne_nil (n : Nat) : decDigits n ≠ [] :=
  decDigitsAux_ne_nil (n + 1) n (by omega)

theorem decDigitsAux_lt_ten :
    ∀ fuel n : Nat, n < fuel → ∀ d ∈ decDigitsAux fuel n, d < 10 := by
  intro fuel
  induction fuel with
  | zero => intro n h; omega
  | succ f ih =>
    intro n hn d hd
    simp only [decDigitsAux] at hd
    split at hd
    · simp only [List.mem_singleton] at hd
      omega
    · rcases List.mem_append.1 hd with h | h
      · exact ih (n / 10) (by omega) d h
      · simp only [List.mem_singleton] at h
        omega

theorem decDigits_lt_ten (n : Nat) : ∀ d ∈ decDigits n, d < 10 :=
  decDigitsAux_lt_ten (n + 1) n (by omega)

theorem foldl_decDigitsAux :
    ∀ fuel n : Nat, n < fuel → ∀ a : Nat,
      (decDigitsAux fuel n).foldl (fun x d => x * 10 + d) a =
        a * 10 ^ (decDigitsAux fuel n).length + n := by
  intro fuel
  induction fuel with
  | zero => intro n h; omega
  | succ f ih =>
    intro n hn a
    simp only [decDigitsAux]
    split
    · simp
    · rw [List.foldl_append, List.length_append,
        ih (n / 10) (by omega) a]
      simp only [List.foldl_cons, List.foldl_nil, List.length_singleton]
      rw [pow_succ]
      have : n % 10 + 10 * (n / 10) = n := Nat.mod_add_div n 10
      ring_nf
      omega

theorem foldl_decDigits (n : Nat) (a : Nat) :
    (decDigits n).foldl (fun x d => x * 10 + d) a =
      a * 10 ^ (decDigits n).length + n :=
  foldl_decDigitsAux (n + 1) n (by omega) a

theorem decDigitsAux_length_le :
    ∀ fuel n k : Nat, n < fuel → n < 10 ^ k → 1 ≤ k →
      (decDigitsAux fuel n).length ≤ k := by
  intro fuel
  induction fuel with
  | zero => intro n k h; omega
  | succ f ih =>
    intro n k hn hk hk1
    simp only [decDigitsAux]
    split
    · simp
      omega
    · rw [List.length_append, List.length_singleton]
      have hk2 : 2 ≤ k := by
        rcases Nat.lt_or_ge k 2 with h | h
        · have hk1' : k = 1 := by omega
          subst hk1'
          norm_num at hk
          omega
        · omega
      have hd : n / 10 < 10 ^ (k - 1) := by
        have h10 : 10 ^ k = 10 ^ (k - 1) * 10 := by
          rw [← pow_succ]
          congr 1
          omega
        rw [Nat.div_lt_iff_lt_mul (by omega)]
        omega
      have := ih (n / 10) (k - 1) (by omega) hd (by omega)
      omega

theorem decDigits_length_le (k : Nat) (n : Nat) (hn : n < 10 ^ k)
    (hk : 1 ≤ k) : (decDigits n).length ≤ k :=
  decDigitsAux_length_le (n + 1) n k (by omega) hn hk

theorem zfill_length (w : Nat) (ds : List Nat) (h : ds.length ≤ w) :
    (zfill w ds).length = w := by
  simp only [zfill, List.length_append, List.length_replicate]
  omega

theorem zfill_mem (w : Nat) (ds : List Nat) (h : ∀ d ∈ ds, d < 10) :
    ∀ d ∈ zfill w ds, d < 10 := by
  intro d hd
  rcases List.mem_append.1 hd with h1 | h1
  · have := List.eq_of_mem_replicate h1
    omega
  · exact h d h1

theorem foldl_replicate_zero (k : Nat) :
    (List.replicate k 0).foldl (fun x d => x * 10 + d) 0 = 0 := by
  induction k with
  | zero => rfl
  | succ k ih =>
    rw [List.replicate_succ]
    simpa using ih

theorem foldl_zfill (w : Nat) (ds : List Nat) :
    (zfill w ds).foldl (fun x d => x * 10 + d) 0 =
      ds.foldl (fun x d => x * 10 + d) 0 := by
  simp only [zfill, List.foldl_append]
  congr 1
  exact foldl_replicate_zero (w - ds.length)

theorem toNibbles_append (xs ys : List Nat) :
    toNibbles (xs ++ ys) = toNibbles xs ++ toNibbles ys := by
  induction xs with
  | nil => simp [toNibbles]
  | cons b bs ih => simp [toNibbles, ih]

theorem getLastD_irrel (l : List Nat) (hl : l ≠ []) (a b : Nat) :
    l.getLastD a = l.getLastD b := by
  rcases l with _ | ⟨x, xs⟩
  · exact absurd rfl hl
  · rfl

theorem toNibbles_packPairs :
    ∀ ds : List Nat, ds.length % 2 = 1 → (∀ d ∈ ds, d < 10) →
      ∀ s : Nat, s < 16 →
        toNibbles (packPairs ds ++ [ds.getLastD 0 * 16 + s]) = ds ++ [s]
  | [], hodd, _, _, _ => by simp at hodd
  | [d], _, hd, s, hs => by
    have hd10 : d < 10 := hd d (by simp)
    show [(d * 16 + s) / 16, (d * 16 + s) % 16] = [d, s]
    simp only [List.cons.injEq, and_true]
    omega
  | d1 :: d2 :: rest, hodd, hd, s, hs => by
    have h1 : d1 < 10 := hd d1 (by simp)
    have h2 : d2 < 10 := hd d2 (by simp)
    have hodd2 : rest.length % 2 = 1 := by
      simp only [List.length_cons] at hodd
      omega
    have hrest : rest ≠ [] := by
      intro h
      subst h
      simp at hodd2
    have ih := toNibbles_packPairs rest hodd2
      (fun d hmem => hd d (by simp [hmem])) s hs
    have hlast : (d1 :: d2 :: rest).getLastD 0 = rest.getLastD 0 := by
      rw [List.getLastD_cons, List.getLastD_cons]
      exact getLastD_irrel rest hrest d2 0
    rw [hlast]
    show (d1 * 16 + d2) / 16 :: (d1 * 16 + d2) % 16 ::
        toNibbles (packPairs rest ++ [rest.getLastD 0 * 16 + s]) =
      d1 :: d2 :: (rest ++ [s])
    rw [ih]
    simp only [List.cons.injEq]
    exact ⟨by omega, by omega, trivial⟩

theorem unpack_packPairs (ds : List Nat) (hodd : ds.length % 2 = 1)
    (hd : ∀ d ∈ ds, d < 10) (s : Nat) (hs : s < 16) :
    unpack_comp3 (packPairs ds ++ [ds.getLastD 0 * 16 + s]) =
      some (if s = 13
        then -((ds.foldl (fun x d => x * 10 + d) 0 : Nat) : Int)
        else ((ds.foldl (fun x d => x * 10 + d) 0 : Nat) : Int)) := by
  have hne : packPairs ds ++ [ds.getLastD 0 * 16 + s] ≠ [] := by simp
  rw [unpack_comp3, if_neg hne]
  simp only [toNibbles_packPairs ds hodd hd s hs]
  rw [List.getLastD_eq_getLast?, List.getLast?_concat, List.dropLast_concat]
  simp only [Option.getD_some]
  rw [List.filter_eq_self.mpr (fun a ha => by simpa using hd a ha)]
  simp [beq_iff_eq]

theorem unpack_pack (v : Int) (h1 : -99999 ≤ v) (h2 : v ≤ 99999) :
    unpack_comp3 (pack_comp3 v 3) = some v := by
  have habs : v.natAbs ≤ 99999 := by omega
  have hlen : (zfill (3 * 2 - 1) (decDigits v.natAbs)).length = 5 :=
    zfill_length 5 _ (decDigits_length_le 5 _ (by omega) (by omega))
  have hmem : ∀ d ∈ zfill (3 * 2 - 1) (decDigits v.natAbs), d < 10 :=
    zfill_mem _ _ (decDigits_lt_ten _)
  have hfold : (zfill (3 * 2 - 1) (decDigits v.natAbs)).foldl
      (fun x d => x * 10 + d) 0 = v.natAbs := by
    rw [foldl_zfill, foldl_decDigits]
    simp
  rw [pack_comp3]
  rcases le_or_lt 0 v with hv | hv
  · rw [if_pos hv,
      unpack_packPairs _ (by omega) hmem 0xC (by omega),
      if_neg (by omega), hfold]
    simp only [Option.some.injEq]
    omega
  · rw [if_neg (by omega),
      unpack_packPairs _ (by omega) hmem 0xD (by omega),
      if_pos rfl, hfold]
    simp only [Option.some.injEq]
    omega

/-! ### Code-page and text-field lemmas -/

theorem lookupIdx_getD (c : Nat) :
    ∀ (l : List Nat) (i : Nat), lookupIdx c l = some i → l.getD i 0 = c := by
  intro l
  induction l with
  | nil => intro i h; simp [lookupIdx] at h
  | cons x xs ih =>
    intro i h
    rw [lookupIdx] at h
    by_cases hx : x = c
    · subst hx
      simp at h
      subst h
      rfl
    · rw [if_neg (by simpa using hx)] at h
      cases hj : lookupIdx c xs with
      | none => rw [hj] at h; simp at h
      | some j =>
        rw [hj] at h
        simp at h
        subst h
        simpa using ih j hj

theorem encode_decode_byte (c b : Nat) (h : cp037EncodeChar c = some b) :
    cp037DecodeByte b = c := by
  exact lookupIdx_getD c cp037Table b h

theorem mapM_encode_decode (l : List Nat) :
    ∀ bs : List Nat, l.mapM cp037EncodeChar = some bs →
      bs.length = l.length ∧ bs.map cp037DecodeByte = l := by
  induction l with
  | nil =>
    intro bs h
    simp only [List.mapM_nil, pure, Option.some.injEq] at h
    subst h
    simp
  | cons c cs ih =>
    intro bs h
    rw [List.mapM_cons] at h
    cases hc : cp037EncodeChar c with
    | none => rw [hc] at h; simp at h
    | some b =>
      rw [hc] at h
      cases hcs : cs.mapM cp037EncodeChar with
      | none => rw [hcs] at h; simp at h
      | some bs2 =>
        rw [hcs] at h
        simp at h
        obtain ⟨h1, h2⟩ := ih bs2 hcs
        subst h
        simp [h1, h2, encode_decode_byte c b hc]

theorem length_dropWhile_le (p : Nat → Bool) (l : List Nat) :
    (l.dropWhile p).length ≤ l.length := by
  induction l with
  | nil => simp
  | cons a l ih =>
    cases hq : p a
    · rw [List.dropWhile_cons_of_neg (by simp [hq])]
    · rw [List.dropWhile_cons_of_pos hq]
      simp only [List.length_cons]
      omega

theorem dropWhile_fix_append (p : Nat → Bool) (l t : List Nat)
    (h : l.dropWhile p = l) (hne : l ≠ []) :
    (l ++ t).dropWhile p = l ++ t := by
  rcases l with _ | ⟨a, l⟩
  · exact absurd rfl hne
  · have hpa : p a = false := by
      cases hq : p a
      · rfl
      · rw [List.dropWhile_cons_of_pos hq] at h
        have h1 := congrArg List.length h
        have h2 := length_dropWhile_le p l
        simp only [List.length_cons] at h1
        omega
    rw [List.cons_append, List.dropWhile_cons_of_neg (by simp [hpa])]

theorem dropWhile_replicate_prepend (p : Nat → Bool) (x : Nat)
    (hp : p x = true) (k : Nat) (l : List Nat) :
    (List.replicate k x ++ l).dropWhile p = l.dropWhile p := by
  induction k with
  | zero => rfl
  | succ k ih =>
    rw [List.replicate_succ, List.cons_append,
      List.dropWhile_cons_of_pos hp]
    exact ih

theorem pyStrip_pad (s : List Nat) (h : NoEdgeWS s) (k : Nat) :
    pyStrip (s ++ List.replicate k 32) = s := by
  rcases s with _ | ⟨a, s⟩
  · simp only [List.nil_append, pyStrip]
    rw [show List.replicate k 32 = List.replicate k 32 ++ [] from by simp,
      dropWhile_replicate_prepend pyIsSpace 32 rfl k []]
    rfl
  · obtain ⟨h1, h2⟩ := h
    rw [pyStrip, dropWhile_fix_append pyIsSpace (a :: s) _ h1 (by simp),
      List.reverse_append, List.reverse_replicate,
      dropWhile_replicate_prepend pyIsSpace 32 rfl k (a :: s).reverse, h2,
      List.reverse_reverse]

theorem decodeText_encodeText (s : List Nat) (hws : NoEdgeWS s) (width : Nat)
    (bs : List Nat) (h : encodeText s width = some bs) :
    decodeText bs = s ∧ bs.length = s.length + (width - s.length) := by
  rw [encodeText] at h
  obtain ⟨h1, h2⟩ := mapM_encode_decode _ bs h
  constructor
  · rw [decodeText, h2, pyStrip_pad s hws]
  · rw [h1]
    simp

/-! ### Reader lemmas -/

theorem unpack_comp3_isSome (raw : List Nat) (h : raw ≠ []) :
    ∃ v, unpack_comp3 raw = some v := by
  rw [unpack_comp3, if_neg h]
  exact ⟨_, rfl⟩

theorem parseChunk_isSome (chunk : List Nat) (h : 30 < chunk.length) :
    ∃ r, parseChunk chunk = some r := by
  have hne : (chunk.drop 30).take 3 ≠ [] := by
    have : ((chunk.drop 30).take 3).length = min 3 (chunk.length - 30) := by
      simp [List.length_take, List.length_drop]
    intro hnil
    rw [hnil] at this
    simp at this
    omega
  obtain ⟨v, hv⟩ := unpack_comp3_isSome _ hne
  rw [parseChunk, hv]
  exact ⟨_, rfl⟩

theorem parseLoop_total :
    ∀ fuel bs, bs.length ≤ fuel →
      (parseLoop fuel bs).1.length = bs.length / 83 ∧
        (parseLoop fuel bs).2 = 0 := by
  intro fuel
  induction fuel with
  | zero =>
    intro bs h
    have : bs.length = 0 := by omega
    simp [parseLoop]
    omega
  | succ f ih =>
    intro bs hf
    by_cases h : bs.length < 83
    · rw [parseLoop, if_pos h]
      simp
      omega
    · obtain ⟨r, hr⟩ := parseChunk_isSome (bs.take 83)
        (by simp [List.length_take]; omega)
      obtain ⟨ih1, ih2⟩ := ih (bs.drop 83) (by simp [List.length_drop]; omega)
      rw [parseLoop, if_neg h]
      simp only [hr]
      constructor
      · simp only [List.length_cons, ih1, List.length_drop]
        omega
      · exact ih2

theorem parse_mainframe_file_total (bs : List Nat) :
    (parse_mainframe_file bs).1.length = bs.length / 83 ∧
      (parse_mainframe_file bs).2 = 0 :=
  parseLoop_total bs.length bs (by omega)

/-! ### Serializer length lemmas -/

theorem packPairs_length :
    ∀ ds : List Nat, (packPairs ds).length = ds.length / 2
  | [] => by simp [packPairs]
  | [d] => by simp [packPairs]
  | a :: b :: rest => by
    simp only [packPairs, List.length_cons, packPairs_length rest]
    omega

theorem pack_comp3_length (v : Int) (h : v.natAbs ≤ 99999) :
    (pack_comp3 v 3).length = 3 := by
  rw [pack_comp3]
  rw [List.length_append, List.length_singleton, packPairs_length,
    zfill_length (3 * 2 - 1) _ (decDigits_length_le 5 _ (by omega) (by omega))]

theorem encodeText_length (s : List Nat) (w : Nat) (bs : List Nat)
    (h : encodeText s w = some bs) :
    bs.length = s.length + (w - s.length) := by
  rw [encodeText] at h
  have := (mapM_encode_decode _ bs h).1
  rw [this]
  simp

theorem create_ebcdic_record_parts (r : MRecord) (bs : List Nat)
    (h : create_ebcdic_record r = some bs) :
    ∃ i n t, encodeText r.id 10 = some i ∧ encodeText r.name 20 = some n ∧
      encodeText r.text 50 = some t ∧
      bs = i ++ (n ++ (pack_comp3 r.amount 3 ++ t)) := by
  rw [create_ebcdic_record] at h
  cases hi : encodeText r.id 10 with
  | none => rw [hi] at h; simp at h
  | some i =>
    rw [hi] at h
    cases hn : encodeText r.name 20 with
    | none => rw [hn] at h; simp at h
    | some n =>
      rw [hn] at h
      cases ht : encodeText r.text 50 with
      | none => rw [ht] at h; simp at h
      | some t =>
        rw [ht] at h
        simp at h
        exact ⟨i, n, t, rfl, rfl, rfl, h.symm⟩

theorem create_ebcdic_record_length (r : MRecord) (hb : InBounds r)
    (bs : List Nat) (h : create_ebcdic_record r = some bs) :
    bs.length = 83 := by
  obtain ⟨hid, hname, htext, hlo, hhi⟩ := hb
  obtain ⟨i, n, t, hi, hn, ht, hbs⟩ := create_ebcdic_record_parts r bs h
  have hil : i.length = 10 := by
    rw [encodeText_length _ _ _ hi]
    omega
  have hnl : n.length = 20 := by
    rw [encodeText_length _ _ _ hn]
    omega
  have htl : t.length = 50 := by
    rw [encodeText_length _ _ _ ht]
    omega
  have hpl : (pack_comp3 r.amount 3).length = 3 :=
    pack_comp3_length r.amount (by omega)
  rw [hbs]
  simp only [List.length_append]
  omega

/-! ### Round-trip helper -/

theorem parseChunk_create (r : MRecord) (hb : InBounds r)
    (h1 : NoEdgeWS r.id) (h2 : NoEdgeWS r.name) (h3 : NoEdgeWS r.text)
    (bs : List Nat) (h : create_ebcdic_record r = some bs) :
    parseChunk bs = some r := by
  obtain ⟨hid, hname, htext, hlo, hhi⟩ := hb
  obtain ⟨i, n, t, hi, hn, ht, hbs⟩ := create_ebcdic_record_parts r bs h
  obtain ⟨hdi, hil⟩ := decodeText_encodeText r.id h1 10 i hi
  obtain ⟨hdn, hnl⟩ := decodeText_encodeText r.name h2 20 n hn
  obtain ⟨hdt, htl⟩ := decodeText_encodeText r.text h3 50 t ht
  have hil' : i.length = 10 := by omega
  have hnl' : n.length = 20 := by omega
  have htl' : t.length = 50 := by omega
  have hpl : (pack_comp3 r.amount 3).length = 3 :=
    pack_comp3_length r.amount (by omega)
  subst hbs
  have e10 : (i ++ (n ++ (pack_comp3 r.amount 3 ++ t))).take 10 = i :=
    List.take_left' hil'
  have ed10 : (i ++ (n ++ (pack_comp3 r.amount 3 ++ t))).drop 10 =
      n ++ (pack_comp3 r.amount 3 ++ t) := List.drop_left' hil'
  have e20 : ((i ++ (n ++ (pack_comp3 r.amount 3 ++ t))).drop 10).take 20 =
      n := by
    rw [ed10]
    exact List.take_left' hnl'
  have ed30 : (i ++ (n ++ (pack_comp3 r.amount 3 ++ t))).drop 30 =
      pack_comp3 r.amount 3 ++ t := by
    have : (30 : Nat) = 10 + 20 := rfl
    rw [this, ← List.drop_drop, ed10, List.drop_left' hnl']
  have e3 : ((i ++ (n ++ (pack_comp3 r.amount 3 ++ t))).drop 30).take 3 =
      pack_comp3 r.amount 3 := by
    rw [ed30]
    exact List.take_left' hpl
  have ed33 : (i ++ (n ++ (pack_comp3 r.amount 3 ++ t))).drop 33 = t := by
    have : (33 : Nat) = 30 + 3 := rfl
    rw [this, ← List.drop_drop, ed30, List.drop_left' hpl]
  have e50 : ((i ++ (n ++ (pack_comp3 r.amount 3 ++ t))).drop 33).take 50 =
      t := by
    rw [ed33, ← htl', List.take_length]
  rw [parseChunk, e3, unpack_pack r.amount (by omega) (by omega),
    e10, e20, e50, hdi, hdn, hdt]

/-! ### Concrete fixtures -/

/-- A record within all bounds: id "1", name "Bob", amount 9999,
text "ok". -/
def rW : MRecord :=
  { id := [49], name := [66, 111, 98], amount := 9999, text := [111, 107] }

/-- A record whose id has 11 characters ("AAAAAAAAAAA"), one more than the
id field width. -/
def recLongId : MRecord :=
  { id := List.replicate 11 65, name := [], amount := 0, text := [] }

/-- The code points of the 30-character string
"a string longer than ten chars". -/
def s30 : List Nat :=
  [97, 32, 115, 116, 114, 105, 110, 103, 32, 108, 111, 110, 103, 101, 114,
   32, 116, 104, 97, 110, 32, 116, 101, 110, 32, 99, 104, 97, 114, 115]

/-- One 83-byte record image: a one-byte EBCDIC id, blank name, the given
3 amount bytes, and a blank text field (0x40 is the EBCDIC space). -/
def recBytes (idb : Nat) (amt : List Nat) : List Nat :=
  idb :: (List.replicate 29 64 ++ (amt ++ List.replicate 50 64))

/-- Five consecutive 83-byte records with EBCDIC ids "1".."5"; records
0, 1, 3, 4 carry the valid packed amount 0x12345C (+12345); record 2 has
the corrupted amount bytes 0x123A5C with the non-digit nibble 0xA injected
in a digit position. -/
def srcC2 : List Nat :=
  recBytes 241 [18, 52, 92] ++ (recBytes 242 [18, 52, 92] ++
    (recBytes 243 [18, 58, 92] ++ (recBytes 244 [18, 52, 92] ++
      recBytes 245 [18, 52, 92])))

/-! ### Digit-string value lemma -/

theorem foldl_eq_ofDigits (l : List Nat) :
    ∀ a : Nat, l.foldl (fun x d => x * 10 + d) a =
      a * 10 ^ l.length + Nat.ofDigits 10 l.reverse := by
  induction l with
  | nil =>
    intro a
    simp [Nat.ofDigits]
  | cons d l ih =>
    intro a
    rw [List.foldl_cons, ih (a * 10 + d), List.reverse_cons]
    have happ : Nat.ofDigits 10 (l.reverse ++ [d]) =
        Nat.ofDigits 10 l.reverse + 10 ^ l.reverse.length *
          Nat.ofDigits 10 [d] := by
      exact_mod_cast Nat.ofDigits_append
    have hd : Nat.ofDigits 10 [d] = d := by
      simp [Nat.ofDigits]
    rw [happ, hd, List.length_reverse, List.length_cons, pow_succ]
    ring

/-! ### Claims -/

/-- C1: for every record whose field values are within the stated width
and magnitude bounds and whose text fields carry no leading or trailing
whitespace, deserializing the serialization of the record yields the
record back: whenever `create_ebcdic_record r` produces bytes, parsing
those bytes returns exactly `r`. -/
theorem roundtrip_deserialize_serialize (r : MRecord) (hb : InBounds r)
    (h1 : NoEdgeWS r.id) (h2 : NoEdgeWS r.name) (h3 : NoEdgeWS r.text)
    (bs : List Nat) (h : create_ebcdic_record r = some bs) :
    parseChunk bs = some r :=
  parseChunk_create r hb h1 h2 h3 bs h

/-- Witness for C1 at the concrete record `rW`. -/
theorem roundtrip_deserialize_serialize_witness :
    InBounds rW ∧ NoEdgeWS rW.id ∧ NoEdgeWS rW.name ∧ NoEdgeWS rW.text ∧
      parseChunk ((create_ebcdic_record rW).getD []) = some rW :=
  ⟨by decide, by decide, by decide, by decide,
    roundtrip_deserialize_serialize rW (by decide) (by decide) (by decide)
      (by decide) _ (by decide)⟩

/-- C2 counterexample: on the 5-record source with a non-digit nibble
injected into record 2's amount field, the reader does NOT yield 4 records
with one diagnostic. -/
theorem skip_and_continue_refuted :
    ¬((parse_mainframe_file srcC2).1.length = 4 ∧
      (parse_mainframe_file srcC2).2 = 1) := by
  decide

/-- C2 amended: on that source the reader yields all 5 records in original
order — record 2 included, its amount silently changed from 12345 to 1235
by dropping the non-digit nibble — and reports zero diagnostics, because
`unpack_comp3` never raises on a 3-byte field and the except branch is
unreachable. -/
theorem reader_keeps_corrupt_record :
    (parse_mainframe_file srcC2).1 =
      [{ id := [49], name := [], amount := 12345, text := [] },
       { id := [50], name := [], amount := 12345, text := [] },
       { id := [51], name := [], amount := 1235, text := [] },
       { id := [52], name := [], amount := 12345, text := [] },
       { id := [53], name := [], amount := 12345, text := [] }] ∧
      (parse_mainframe_file srcC2).2 = 0 := by
  decide

/-- C3 counterexample: a record with an 11-character id serializes to 84
bytes, not 83 — the encoder pads but never truncates, so the fixed-width
claim fails without a precondition on field lengths. -/
theorem serialize_fixed_width_refuted :
    (create_ebcdic_record recLongId).map List.length = some 84 ∧
      ¬(84 = 83) := by
  decide

/-- C3 amended: for every record within the field-width and magnitude
bounds, any successful serialization is exactly 83 bytes. -/
theorem serialize_fixed_width (r : MRecord) (hb : InBounds r)
    (bs : List Nat) (h : create_ebcdic_record r = some bs) :
    bs.length = 83 :=
  create_ebcdic_record_length r hb bs h

/-- Witness for C3 at the concrete record `rW`. -/
theorem serialize_fixed_width_witness :
    InBounds rW ∧ ((create_ebcdic_record rW).getD []).length = 83 :=
  ⟨by decide, serialize_fixed_width rW (by decide) _ (by decide)⟩

/-- C4 counterexample: `pack_comp3` does not fail on magnitude `10 ^ 5`;
it returns a 4-byte output for both `100000` and `-100000`. -/
theorem range_rejection_refuted :
    (pack_comp3 100000 3).length = 4 ∧
      (pack_comp3 (-100000) 3).length = 4 := by
  decide

/-- C4 amended: `pack_comp3` performs no range check at all; at magnitude
`10 ^ 5` it silently emits the 4-byte sequences below (duplicating the
final digit into the pair bytes) instead of raising a `RangeError`. -/
theorem pack_comp3_no_range_check :
    pack_comp3 100000 3 = [16, 0, 0, 12] ∧
      pack_comp3 (-100000) 3 = [16, 0, 0, 13] := by
  decide

/-- C5 counterexample: encoding the 30-character string `s30` at width 10
does not truncate: the output is 30 bytes and decodes to the full string,
which differs from its first 10 characters. -/
theorem truncation_on_encode_refuted :
    (encodeText s30 10).map List.length = some 30 ∧
      (encodeText s30 10).map decodeText = some s30 ∧
      ¬(s30 = pyStrip (s30.take 10)) := by
  decide

/-- C5 amended: for a value at least as long as the field width (with no
leading or trailing whitespace), the encoder emits one byte per character
with no truncation, and decoding returns the full value, not a prefix. -/
theorem encode_no_truncation (s : List Nat) (hws : NoEdgeWS s)
    (width : Nat) (hw : width ≤ s.length) (bs : List Nat)
    (he : encodeText s width = some bs) :
    bs.length = s.length ∧ decodeText bs = s := by
  obtain ⟨h1, h2⟩ := decodeText_encodeText s hws width bs he
  constructor
  · omega
  · exact h1

/-- Witness for C5 at the concrete string `s30` and width 10. -/
theorem encode_no_truncation_witness :
    NoEdgeWS s30 ∧ 10 ≤ s30.length ∧
      ((encodeText s30 10).getD []).length = s30.length ∧
      decodeText ((encodeText s30 10).getD []) = s30 :=
  ⟨by decide, by decide,
    (encode_no_truncation s30 (by decide) 10 (by decide) _ (by decide)).1,
    (encode_no_truncation s30 (by decide) 10 (by decide) _ (by decide)).2⟩

/-- C6: packing then unpacking is the identity on every integer in
`[-99999, 99999]`; zero is packed with the nonnegative sign nibble and
decodes as nonnegative zero. -/
theorem decode_encode_sign_fidelity (v : Int) (h1 : -99999 ≤ v)
    (h2 : v ≤ 99999) : unpack_comp3 (pack_comp3 v 3) = some v :=
  unpack_pack v h1 h2

/-- Witness for C6 at `v = 0` and `v = -12345`. -/
theorem decode_encode_sign_fidelity_witness :
    ((-99999 : Int) ≤ 0 ∧ (0 : Int) ≤ 99999 ∧
      unpack_comp3 (pack_comp3 0 3) = some 0) ∧
      unpack_comp3 (pack_comp3 (-12345) 3) = some (-12345) :=
  ⟨⟨by decide, by decide,
    decode_encode_sign_fidelity 0 (by decide) (by decide)⟩,
    decode_encode_sign_fidelity (-12345) (by decide) (by decide)⟩

/-- C7: a byte source of length `83 * N + k` with `0 < k < 83` yields
exactly `N` records, the trailing partial chunk is silently discarded and
no diagnostic is reported for it. -/
theorem truncated_tail (bs : List Nat) (N k : Nat)
    (hlen : bs.length = 83 * N + k) (h0 : 0 < k) (h1 : k < 83) :
    (parse_mainframe_file bs).1.length = N ∧
      (parse_mainframe_file bs).2 = 0 := by
  obtain ⟨ha, hb⟩ := parse_mainframe_file_total bs
  refine ⟨?_, hb⟩
  rw [ha, hlen]
  omega

/-- Witness for C7 on 88 zero bytes: one record, five trailing bytes. -/
theorem truncated_tail_witness :
    (List.replicate 88 (0 : Nat)).length = 83 * 1 + 5 ∧ 0 < 5 ∧ 5 < 83 ∧
      (parse_mainframe_file (List.replicate 88 0)).1.length = 1 ∧
      (parse_mainframe_file (List.replicate 88 0)).2 = 0 :=
  ⟨by decide, by decide, by decide,
    (truncated_tail _ 1 5 (by decide) (by decide) (by decide)).1,
    (truncated_tail _ 1 5 (by decide) (by decide) (by decide)).2⟩

/-- C8: on a 3-byte input whose five digit-position nibbles are all
decimal digits, the decoder reads the low nibble of the last byte as the
sign (13, hex D, means negative; anything else nonnegative), the five
remaining nibbles in order as a decimal digit string, and applies the
sign. -/
theorem unpack_digit_semantics (b0 b1 b2 : Nat)
    (h00 : b0 / 16 < 10) (h01 : b0 % 16 < 10)
    (h10 : b1 / 16 < 10) (h11 : b1 % 16 < 10)
    (h20 : b2 / 16 < 10) :
    unpack_comp3 [b0, b1, b2] =
      some (if b2 % 16 = 13
        then -((b0 / 16 * 10000 + b0 % 16 * 1000 + b1 / 16 * 100 +
          b1 % 16 * 10 + b2 / 16 : Nat) : Int)
        else ((b0 / 16 * 10000 + b0 % 16 * 1000 + b1 / 16 * 100 +
          b1 % 16 * 10 + b2 / 16 : Nat) : Int)) := by
  have hgl : (toNibbles [b0, b1, b2]).getLastD 0 = b2 % 16 := rfl
  have hdl : (toNibbles [b0, b1, b2]).dropLast =
      [b0 / 16, b0 % 16, b1 / 16, b1 % 16, b2 / 16] := rfl
  have hfil : [b0 / 16, b0 % 16, b1 / 16, b1 % 16, b2 / 16].filter
      (fun c => c < 10) = [b0 / 16, b0 % 16, b1 / 16, b1 % 16, b2 / 16] := by
    refine List.filter_eq_self.mpr ?_
    intro a ha
    simp only [List.mem_cons, List.not_mem_nil, or_false] at ha
    rcases ha with rfl | rfl | rfl | rfl | rfl <;>
      simp [h00, h01, h10, h11, h20]
  have hfold : List.foldl (fun a d => a * 10 + d) 0
      [b0 / 16, b0 % 16, b1 / 16, b1 % 16, b2 / 16] =
      b0 / 16 * 10000 + b0 % 16 * 1000 + b1 / 16 * 100 +
        b1 % 16 * 10 + b2 / 16 := by
    simp only [List.foldl_cons, List.foldl_nil]
    ring
  rw [unpack_comp3, if_neg (by simp)]
  simp only [hgl, hdl, hfil, hfold, beq_iff_eq]

/-- Witness for C8 at the bytes 0x12 0x34 0x5D, decoding to -12345. -/
theorem unpack_digit_semantics_witness :
    unpack_comp3 [18, 52, 93] = some (-12345) := by
  rw [unpack_digit_semantics 18 52 93 (by decide) (by decide) (by decide)
    (by decide) (by decide)]
  decide

/-- C9 counterexample: a record with an 11-character id serializes
without error, yet the writer's output for that one-record list is 84
bytes, not `83 * 1`. -/
theorem writer_fixed_length_refuted :
    (dataframe_to_dat [recLongId]).map List.length = some 84 ∧
      ¬(84 = 83 * 1) := by
  decide

/-- C9 amended: the writer serializes the rows in input order and
concatenates; when every row is within the field bounds any successful
output is exactly `83 * n` bytes, and if any row fails to serialize the
whole write aborts with no partial output. -/
theorem writer_concat_abort (rows : List MRecord)
    (hb : ∀ r ∈ rows, InBounds r) :
    (∀ bs, dataframe_to_dat rows = some bs →
      bs.length = 83 * rows.length) ∧
      ((∃ r ∈ rows, create_ebcdic_record r = none) →
        dataframe_to_dat rows = none) := by
  induction rows with
  | nil =>
    constructor
    · intro bs h
      simp only [dataframe_to_dat, Option.some.injEq] at h
      subst h
      simp
    · rintro ⟨r, hr, -⟩
      simp at hr
  | cons r rows ih =>
    have hbr : InBounds r := hb r (by simp)
    obtain ⟨ih1, ih2⟩ := ih (fun x hx => hb x (by simp [hx]))
    constructor
    · intro bs h
      rw [dataframe_to_dat] at h
      cases hc : create_ebcdic_record r with
      | none => rw [hc] at h; simp at h
      | some b =>
        rw [hc] at h
        cases hd : dataframe_to_dat rows with
        | none => rw [hd] at h; simp at h
        | some rest =>
          rw [hd] at h
          simp at h
          have hbl : b.length = 83 :=
            create_ebcdic_record_length r hbr b hc
          have hrl : rest.length = 83 * rows.length := ih1 rest hd
          rw [← h]
          simp only [List.length_append, List.length_cons, hbl, hrl]
          ring
    · rintro ⟨x, hx, hxn⟩
      rw [dataframe_to_dat]
      rcases List.mem_cons.1 hx with rfl | hx2
      · simp [hxn]
      · cases hc : create_ebcdic_record r with
        | none => simp [hc]
        | some b =>
          have hnone : dataframe_to_dat rows = none := ih2 ⟨x, hx2, hxn⟩
          simp [hc, hnone]

/-- Witness for C9 at the one-record list `[rW]`. -/
theorem writer_concat_abort_witness :
    (∀ r ∈ [rW], InBounds r) ∧
      ((dataframe_to_dat [rW]).getD []).length = 83 * 1 :=
  ⟨by decide,
    (writer_concat_abort [rW] (by decide)).1 _ (by decide)⟩

/-- C10: the packed-decimal decoder is total on nonempty byte strings: it
returns a value whose magnitude is the decimal value of the digit string
obtained by deleting (not zeroing) every non-digit nibble from the digit
positions — the empty digit string giving magnitude 0 — with the sign
taken from the last nibble. -/
theorem unpack_total_strips (raw : List Nat) (h : ¬(raw = [])) :
    unpack_comp3 raw =
      some (if (toNibbles raw).getLastD 0 = 13
        then -((Nat.ofDigits 10
          (((toNibbles raw).dropLast.filter (fun c => c < 10)).reverse) :
            Nat) : Int)
        else ((Nat.ofDigits 10
          (((toNibbles raw).dropLast.filter (fun c => c < 10)).reverse) :
            Nat) : Int)) := by
  rw [unpack_comp3, if_neg h]
  simp [foldl_eq_ofDigits, beq_iff_eq]

/-- Witness for C10 at the bytes 0xAB 0xCD: every digit-position nibble is
a non-digit, so the magnitude is 0, and the sign nibble 0xD yields -0 = 0
without an error. -/
theorem unpack_total_strips_witness :
    unpack_comp3 [171, 205] = some 0 := by
  rw [unpack_total_strips [171, 205] (by decide)]
  decide

end GreenZombies
